import Mathlib

/-!
# Verification of the sharepoint client library

Shallow embedding of `sharepoint/SPObjects.py` and `sharepoint/api.py`:
the call-string argument stringifier, the chunked-upload loop of
`SPFolder._stream_upload`, the form-digest renewal logic of
`APIclient._digest`/`APIclient.http`, the lazy attribute machinery of
`SPObject`/`LazyAttribute`, and the folder tree walk of `SPFolder.walk`.
-/

namespace Sharepoint

/-! ## Call-string argument stringification (`_stringify` in SPObjects.py) -/

/-- A Python value passed as an argument to `SPObject._make_call_string`:
a `str`, a `uuid.UUID` (carrying its canonical textual form `str(obj)`),
or any other object (carrying the result of `str(obj)`). -/
inductive CallArg where
  | pstr (s : String)
  | puuid (u : String)
  | other (r : String)
deriving DecidableEq

/-- Python `s.replace("'", "%27%27")`, character by character: every
occurrence of the single-character pattern `'` is replaced by `%27%27`. -/
def doubleApos : List Char → List Char
  | [] => []
  | c :: rest =>
    if c = '\'' then '%' :: '2' :: '7' :: '%' :: '2' :: '7' :: doubleApos rest
    else c :: doubleApos rest

/-- `_stringify(obj)`: a string has its apostrophes encoded and is wrapped in
single quotes (the `try` branch, `obj.replace` succeeding); a `uuid.UUID`
renders as `guid'<value>'`; anything else renders as `str(obj)` unquoted
(the `AttributeError` branch). -/
def stringify : CallArg → String
  | .pstr s => "'" ++ String.mk (doubleApos s.data) ++ "'"
  | .puuid u => "guid'" ++ u ++ "'"
  | .other r => r

/-- Python `s.strip(', ')`: remove any of the characters `,` and space from
both ends of the string. -/
def pyStrip (chars : List Char) (s : String) : String :=
  String.mk (((s.data.dropWhile (· ∈ chars)).reverse.dropWhile (· ∈ chars)).reverse)

/-- `SPObject._make_call_string(method_name, *args, **kwargs)`. -/
def makeCallString (methodName : String) (args : List CallArg)
    (kwargs : List (String × CallArg)) : String :=
  let argsS := String.intercalate ", " (args.map stringify)
  let kwargsS := String.intercalate ", " (kwargs.map (fun p => p.1 ++ "=" ++ stringify p.2))
  let allArgs := pyStrip [',', ' '] (argsS ++ ", " ++ kwargsS)
  "/" ++ methodName ++ "(" ++ allArgs ++ ")"

/-! ## Chunked upload (`SPFolder._stream_upload` in SPObjects.py)

The loop reads `chunk_size`-byte chunks starting at offset 0.  The first
chunk is always sent through `startupload`; afterwards a chunk whose
read-time offset satisfies `offset >= file_size - chunk_size` is sent
through `finishupload` and the loop breaks; any other chunk goes through
`continueupload`.  On any exception inside the `try` block the file handle
is closed, the failure is logged, a `cancelupload` call carrying the
session id is sent, and the function returns normally (the `except`
handler does not re-raise). -/

/-- `chunk_size = 1024*1024` as set in `SPFolder.upload_file`. -/
def uploadChunkSize : Nat := 1024 * 1024

/-- An observable event of `_stream_upload`: one of the four upload calls
(each carrying the session id, and the read-time offset and byte count of
the chunk it transmits), or the closing of the local file handle. -/
inductive UpEvent where
  | startUpload (uploadId : String) (off len : Nat)
  | continueUpload (uploadId : String) (off len : Nat)
  | finishUpload (uploadId : String) (off len : Nat)
  | cancelUpload (uploadId : String)
  | fileClosed
deriving DecidableEq

/-- Whether an event is the `finishupload` call. -/
def UpEvent.isFinish : UpEvent → Bool
  | .finishUpload _ _ _ => true
  | _ => false

/-- Whether an event is the `continueupload` call. -/
def UpEvent.isContinue : UpEvent → Bool
  | .continueUpload _ _ _ => true
  | _ => false

/-- The read-time offset an upload call carries (0 for the non-chunk events). -/
def UpEvent.offsetOf : UpEvent → Nat
  | .startUpload _ off _ => off
  | .continueUpload _ off _ => off
  | .finishUpload _ off _ => off
  | .cancelUpload _ => 0
  | .fileClosed => 0

/-- Failure injection: `failAt = some i` makes the `i`-th `.send()` inside
the `try` block raise (0-indexed over the upload calls, in order). -/
def sendFails (failAt : Option Nat) (ix : Nat) : Bool :=
  decide (failAt = some ix)

/-- The `while` loop of `_stream_upload` after the first chunk
(`first_chunk` is already `False`): each iteration reads
`len = min chunkSize (fileSize - offset)` bytes, finishes and breaks when
`offset >= fileSize - chunkSize`, otherwise continues and advances the
offset by the number of bytes read.  `gas` bounds the number of
iterations; it never runs out when `fileSize ≤ offset + (gas+1)*chunkSize`
(proved below), so the `gas = 0` fallthrough is unreachable in every use.
Returns the events of the `try` block together with `some e` when a send
raised exception `e`. -/
def streamLoop (uploadId : String) (chunkSize fileSize : Nat) (failAt : Option Nat) :
    Nat → Nat → Nat → List UpEvent × Option String
  | gas, offset, sendIx =>
    let len := min chunkSize (fileSize - offset)
    if fileSize - chunkSize ≤ offset then
      if sendFails failAt sendIx then ([], some "send raised")
      else ([.finishUpload uploadId offset len], none)
    else
      match gas with
      | 0 => ([], none)
      | g + 1 =>
        if sendFails failAt sendIx then ([], some "send raised")
        else
          let rest := streamLoop uploadId chunkSize fileSize failAt g (offset + len) (sendIx + 1)
          (.continueUpload uploadId offset len :: rest.1, rest.2)

/-- The `try` block of `_stream_upload`: the first chunk (offset 0,
`min chunkSize fileSize` bytes) is always routed through `startupload`,
then the loop continues with `first_chunk = False`. -/
def streamTryBlock (uploadId : String) (chunkSize fileSize : Nat)
    (failAt : Option Nat) : List UpEvent × Option String :=
  let len0 := min chunkSize fileSize
  if sendFails failAt 0 then ([], some "send raised")
  else
    let rest := streamLoop uploadId chunkSize fileSize failAt fileSize len0 1
    (.startUpload uploadId 0 len0 :: rest.1, rest.2)

/-- `SPFolder._stream_upload`: run the `try` block; on an exception the
`except` handler closes the file handle, logs, and sends `cancelupload`
with the session id — and then falls off the end of the function, so the
exception is swallowed and the caller sees a normal return (second
component `none` in every case). -/
def streamUploadRun (uploadId : String) (chunkSize fileSize : Nat)
    (failAt : Option Nat) : List UpEvent × Option String :=
  let res := streamTryBlock uploadId chunkSize fileSize failAt
  match res.2 with
  | none => (res.1, none)
  | some _ => (res.1 ++ [.fileClosed, .cancelUpload uploadId], none)

/-- The sequence of upload calls issued on a failure-free run. -/
def streamCalls (uploadId : String) (chunkSize fileSize : Nat) : List UpEvent :=
  (streamUploadRun uploadId chunkSize fileSize none).1

/-! ## Authorization renewal (`APIclient._digest` / `APIclient.http` in api.py) -/

/-- The digest-relevant state of an `APIclient`: the expiry instant
`self.expire` and the session's outgoing `X-RequestDigest` header. -/
structure DigestState where
  expire : Int
  digestHeader : Option String
deriving DecidableEq

/-- An HTTP verb accepted by `APIclient.http`. -/
inductive Verb where
  | get
  | post
deriving DecidableEq

/-- `APIclient._digest()` at time `now`: if `self.expire <= now`, one
renewal POST to the contextinfo endpoint is issued, the session header is
set to the fresh `FormDigestValue` `tok`, and the expiry becomes
`now + FormDigestTimeoutSeconds`.  Returns the new state and the number of
renewal requests issued (0 or 1). -/
def digestStep (st : DigestState) (now : Int) (tok : String) (timeout : Int) :
    DigestState × Nat :=
  if st.expire ≤ now then
    ({ expire := now + timeout, digestHeader := some tok }, 1)
  else (st, 0)

/-- `APIclient.http(url, verb, payload)` at time `now`: a GET goes straight
to the session; a POST first runs `_digest()` and only then issues the
request.  Returns the state after the call, the number of renewal requests
issued, and the digest header the main request was sent with. -/
def httpStep (st : DigestState) (now : Int) (verb : Verb) (tok : String)
    (timeout : Int) : DigestState × Nat × Option String :=
  match verb with
  | .get => (st, 0, st.digestHeader)
  | .post =>
    let d := digestStep st now tok timeout
    (d.1, d.2, d.1.digestHeader)

/-! ## Folder tree walk (`SPFolder.walk` in SPObjects.py) -/

/-- A folder tree: the remote name, the `Folders` attribute (child
folders) and the `Files` attribute (file names), both already resolved. -/
inductive FolderT where
  | mk (name : String) (folders : List FolderT) (files : List String)

/-- The child-folder list of a folder. -/
def FolderT.folders : FolderT → List FolderT
  | .mk _ fs _ => fs

/-- The file list of a folder. -/
def FolderT.files : FolderT → List String
  | .mk _ _ fl => fl

/-- The triple `(top, folders, files)` yielded for one folder. -/
def tripleOf (t : FolderT) : FolderT × List FolderT × List String :=
  (t, t.folders, t.files)

/-- The recursion guard `maxdepth is None or maxdepth > 1` of
`SPFolder.walk`. -/
def walkDescends : Option Int → Bool
  | none => true
  | some d => decide (1 < d)

/-- The depth passed to a child walk: `maxdepth - 1` when `maxdepth` is
truthy, else `None` (`if maxdepth: newdepth = maxdepth - 1 else: newdepth
= None`). -/
def childDepth : Option Int → Option Int
  | none => none
  | some d => if d = 0 then none else some (d - 1)

mutual

/-- `SPFolder.walk(topdown, maxdepth)` flattened to the list of yielded
triples: the current triple is yielded first when `topdown`, then (only if
`maxdepth is None or maxdepth > 1`) each child folder's walk is yielded in
order with depth `childDepth maxdepth`, and the current triple is yielded
last when not `topdown`. -/
def walkT (topdown : Bool) (maxdepth : Option Int) :
    FolderT → List (FolderT × List FolderT × List String)
  | .mk name folders files =>
    (if topdown then [tripleOf (.mk name folders files)] else [])
      ++ (if walkDescends maxdepth then
            walkChildren topdown (childDepth maxdepth) folders
          else [])
      ++ (if topdown then [] else [tripleOf (.mk name folders files)])

/-- `for folder in folders: for x in folder.walk(topdown, newdepth): yield x`. -/
def walkChildren (topdown : Bool) (maxdepth : Option Int) :
    List FolderT → List (FolderT × List FolderT × List String)
  | [] => []
  | f :: fs => walkT topdown maxdepth f ++ walkChildren topdown maxdepth fs

end

mutual

/-- Modelled from the spec: the pre-order traversal of a folder tree
("yields parent before children"), used as the comparison point for
`walk(topdown=True)`. -/
def preTrav : FolderT → List (FolderT × List FolderT × List String)
  | .mk name folders files =>
    tripleOf (.mk name folders files) :: preTravList folders

/-- Modelled from the spec: pre-order traversal of a forest. -/
def preTravList : List FolderT → List (FolderT × List FolderT × List String)
  | [] => []
  | f :: fs => preTrav f ++ preTravList fs

end

mutual

/-- Modelled from the spec: the post-order traversal of a folder tree
("yields children before their parent"), used as the comparison point for
`walk(topdown=False)`. -/
def postTrav : FolderT → List (FolderT × List FolderT × List String)
  | .mk name folders files =>
    postTravList folders ++ [tripleOf (.mk name folders files)]

/-- Modelled from the spec: post-order traversal of a forest. -/
def postTravList : List FolderT → List (FolderT × List FolderT × List String)
  | [] => []
  | f :: fs => postTrav f ++ postTravList fs

end

/-- The deepest folder of the test chain root→A→B→C. -/
def folderC : FolderT := .mk "C" [] ["c.txt"]

/-- Folder B of the test chain root→A→B→C. -/
def folderB : FolderT := .mk "B" [folderC] ["b.txt"]

/-- Folder A of the test chain root→A→B→C. -/
def folderA : FolderT := .mk "A" [folderB] ["a.txt"]

/-- The root of the test chain root→A→B→C. -/
def folderRoot : FolderT := .mk "root" [folderA] ["r.txt"]

/-! ## Python values, JSON parsing and lazy attributes
(`SPObject`, `LazyAttribute`, `_json_to_object` in SPObjects.py) -/

/-- A Python value as it occurs in decoded JSON envelopes and in the
attribute mapping of a node: `None`, a bool, an int, a string, a list, a
dict (association list in insertion order, keys unique), or an
instantiated SharePoint object (class name, endpoint url, attributes). -/
inductive PyVal where
  | pynone
  | pybool (b : Bool)
  | pyint (n : Int)
  | pystr (s : String)
  | pylist (xs : List PyVal)
  | pydict (fields : List (String × PyVal))
  | pyobj (cls : String) (url : String) (attributes : List (String × PyVal))

/-- Python truthiness (`if not json`, `if json`): `None`, `False`, `0`,
`""`, `[]` and `{}` are falsy; every object instance is truthy. -/
def pyTruthy : PyVal → Bool
  | .pynone => false
  | .pybool b => b
  | .pyint n => decide (n ≠ 0)
  | .pystr s => !s.isEmpty
  | .pylist xs => !xs.isEmpty
  | .pydict fields => !fields.isEmpty
  | .pyobj _ _ _ => true

/-- Python dict key lookup (`name in d.keys()` / `d[name]`) on the
insertion-ordered association list. -/
def findKey (k : String) : List (String × PyVal) → Option PyVal
  | [] => none
  | (k', v) :: rest => if k' = k then some v else findKey k rest

/-- Python `d.pop(key)`: remove the binding and return its value together
with the remaining dict, or `none` (a `KeyError`) when the key is absent. -/
def popKey (k : String) : List (String × PyVal) → Option (PyVal × List (String × PyVal))
  | [] => none
  | (k', v) :: rest =>
    if k' = k then some (v, rest)
    else (popKey k rest).map (fun p => (p.1, (k', v) :: p.2))

/-- Whether a value is a Python `dict` (`type(val) is dict`). -/
def isDictVal : PyVal → Bool
  | .pydict _ => true
  | _ => false

/-- `SPObject.__init__(url, api_client, json)`, the attribute-population
part: when `json` is supplied and truthy, `json.pop('__metadata')` mutates
the caller's dict (a `KeyError` when the key is absent), then every
remaining non-dict field is stored in `self._attributes` in iteration
order.  Returns the populated attribute mapping together with the
caller's dict as the constructor leaves it. -/
def spObjectInit (json : Option (List (String × PyVal))) :
    Except String (List (String × PyVal) × Option (List (String × PyVal))) :=
  match json with
  | none => .ok ([], none)
  | some fields =>
    if fields.isEmpty then .ok ([], some fields)
    else
      match popKey "__metadata" fields with
      | none => .error "KeyError: __metadata"
      | some (_, fields') =>
        .ok (fields'.filter (fun p => !isDictVal p.2), some fields')

/-- The classes defined in the SPObjects module that
`globals()[sp_type]` can resolve; any other tag falls back to `SPObject`. -/
def knownClasses : List String :=
  ["SPObject", "LazyAttribute", "LazyPost", "SPSite", "SPFolder", "SPFile"]

/-- `_json_to_object(json, api_client)`: read the type tag from
`json['__metadata']['type']`, strip the dots, dispatch to the registered
class (falling back to `SPObject`), and construct it at
`json['__metadata']['uri']` with the same envelope dict. -/
def jsonToObject (json : PyVal) : Except String PyVal :=
  match json with
  | .pydict fields =>
    match findKey "__metadata" fields with
    | none => .error "KeyError: __metadata"
    | some md =>
      match md with
      | .pydict mfields =>
        match findKey "type" mfields, findKey "uri" mfields with
        | some (.pystr t), some (.pystr uri) =>
          let spType := t.replace "." ""
          let cls := if knownClasses.contains spType then spType else "SPObject"
          match spObjectInit (some fields) with
          | .ok (attrs, _) => .ok (.pyobj cls uri attrs)
          | .error e => .error e
        | _, _ => .error "KeyError: type or uri"
      | _ => .error "TypeError: __metadata is not a dict"
  | _ => .error "TypeError: not a dict"

/-- `LazyAttribute._parse_json(json)`: a falsy `json` parses to `None`;
a dict whose keys contain the attribute name parses to that raw field;
a dict with a `results` field parses each element through
`_json_to_object`; any other dict parses through `_json_to_object`
directly.  A truthy non-dict has no `.keys()` (an `AttributeError`). -/
def parseJson (name : String) (json : PyVal) : Except String PyVal :=
  if !pyTruthy json then .ok .pynone
  else
    match json with
    | .pydict fields =>
      match findKey name fields with
      | some v => .ok v
      | none =>
        match findKey "results" fields with
        | some (.pylist items) =>
          match items.mapM jsonToObject with
          | .ok objs => .ok (.pylist objs)
          | .error e => .error e
        | some _ => .error "TypeError: results is not a list"
        | none => jsonToObject json
    | _ => .error "AttributeError: no keys"

/-- The state of a `LazyAttribute`: `self._name`, `self._endpoint_url`
(set by the `SPObject` constructor) and `self._value`. -/
structure LazyAttr where
  name : String
  url : String
  value : PyVal

/-- `LazyAttribute.__init__(url, api_client, name, value=None)`:
`self._value = self._parse_json(value)`. -/
def lazyAttrInit (url name : String) (value : PyVal) : Except String LazyAttr :=
  match parseJson name value with
  | .ok v => .ok ⟨name, url, v⟩
  | .error e => .error e

/-- `LazyAttribute.value()`: when `self._value` is falsy, one network GET
is issued and its decoded `['d']` payload (`response`) is parsed and
stored; otherwise the stored value is returned directly.  The `Nat`
component counts the network fetches the call issued (0 or 1). -/
def LazyAttr.valueCall (la : LazyAttr) (response : PyVal) :
    Except String (PyVal × LazyAttr × Nat) :=
  if pyTruthy la.value then .ok (la.value, la, 0)
  else
    match parseJson la.name response with
    | .ok v => .ok (v, { la with value := v }, 1)
    | .error e => .error e

/-- The state of a resource node as `SPObject.attribute` sees it: the
endpoint url and the attribute mapping `self._attributes` (insertion
ordered). -/
structure SPObjectState where
  url : String
  attributes : List (String × PyVal)

/-- `SPObject.attribute(name)`: when `name` is already a key of
`self._attributes`, the stored value is returned with no network
activity; otherwise a fresh `LazyAttribute` for
`self._endpoint_url + '/' + name` is created (with no pre-supplied
value) and resolved, and the result is stored under `name`.  The `Nat`
component counts the network fetches the call issued. -/
def attributeCall (o : SPObjectState) (name : String) (response : PyVal) :
    Except String (PyVal × SPObjectState × Nat) :=
  match findKey name o.attributes with
  | some v => .ok (v, o, 0)
  | none =>
    match lazyAttrInit (o.url ++ "/" ++ name) name .pynone with
    | .error e => .error e
    | .ok la =>
      match la.valueCall response with
      | .error e => .error e
      | .ok (v, _, k) => .ok (v, ⟨o.url, o.attributes ++ [(name, v)]⟩, k)

/-! ## Shared helper lemmas -/

theorem doubleApos_append (a b : List Char) :
    doubleApos (a ++ b) = doubleApos a ++ doubleApos b := by
  induction a with
  | nil => rfl
  | cons c rest ih => by_cases h : c = '\'' <;> simp [doubleApos, h, ih]

theorem doubleApos_no_apos (a : List Char) (h : '\'' ∉ a) : doubleApos a = a := by
  induction a with
  | nil => rfl
  | cons c rest ih =>
    simp at h
    simp [doubleApos, Ne.symm h.1, ih h.2]

@[simp] theorem isFinish_startUpload (u : String) (o l : Nat) :
    (UpEvent.startUpload u o l).isFinish = false := rfl

@[simp] theorem isFinish_continueUpload (u : String) (o l : Nat) :
    (UpEvent.continueUpload u o l).isFinish = false := rfl

@[simp] theorem isFinish_finishUpload (u : String) (o l : Nat) :
    (UpEvent.finishUpload u o l).isFinish = true := rfl

@[simp] theorem offsetOf_startUpload (u : String) (o l : Nat) :
    (UpEvent.startUpload u o l).offsetOf = o := rfl

@[simp] theorem offsetOf_continueUpload (u : String) (o l : Nat) :
    (UpEvent.continueUpload u o l).offsetOf = o := rfl

@[simp] theorem offsetOf_finishUpload (u : String) (o l : Nat) :
    (UpEvent.finishUpload u o l).offsetOf = o := rfl

/-- On a failure-free run, the loop of `_stream_upload` terminates without
an exception, the finish condition fires on exactly one chunk, and a chunk
is a finish chunk exactly when its read-time offset is at least
`fileSize - chunkSize`. -/
theorem streamLoop_none_spec (u : String) (cs fileSize : Nat) (hcs : 0 < cs) :
    ∀ (g off six : Nat), fileSize ≤ off + (g + 1) * cs →
      (streamLoop u cs fileSize none g off six).2 = none ∧
      (streamLoop u cs fileSize none g off six).1.countP (fun e => e.isFinish) = 1 ∧
      (∀ e ∈ (streamLoop u cs fileSize none g off six).1,
        (e.isFinish = true ↔ fileSize - cs ≤ e.offsetOf)) := by
  intro g
  induction g with
  | zero =>
    intro off six hle
    have hfin : fileSize - cs ≤ off := by omega
    simp [streamLoop, sendFails, hfin]
    omega
  | succ g ih =>
    intro off six hle
    by_cases hfin : fileSize - cs ≤ off
    · simp [streamLoop, sendFails, hfin]
      omega
    · have hlt : off + cs < fileSize := by omega
      have hlen : min cs (fileSize - off) = cs := by
        apply Nat.min_eq_left; omega
      have hle' : fileSize ≤ (off + cs) + (g + 1) * cs := by
        have hexp : (g + 1 + 1) * cs = cs + (g + 1) * cs := by ring
        rw [hexp] at hle
        omega
      have hrec := ih (off + cs) (six + 1) hle'
      simp only [streamLoop, sendFails, hfin, if_false, hlen]
      simp only [decide_eq_true_eq]
      refine ⟨hrec.1, ?_, ?_⟩
      · simp [List.countP_cons, hrec.2.1]
      · intro e he
        simp at he
        rcases he with he | he
        · subst he
          simp
          omega
        · exact hrec.2.2 e he

/-- A failure-free run over a file larger than one chunk opens with the
`startupload` call for the first chunk and continues with the loop trace,
and the loop raises nothing. -/
theorem streamCalls_decomp (u : String) (cs fileSize : Nat) (hcs : 0 < cs)
    (hfs : cs < fileSize) :
    streamCalls u cs fileSize =
      .startUpload u 0 cs :: (streamLoop u cs fileSize none fileSize cs 1).1 ∧
    (streamLoop u cs fileSize none fileSize cs 1).2 = none := by
  have hsuff : fileSize ≤ cs + (fileSize + 1) * cs := by
    have h1 : fileSize + 1 ≤ (fileSize + 1) * cs := Nat.le_mul_of_pos_right _ hcs
    omega
  have hloop := streamLoop_none_spec u cs fileSize hcs fileSize cs 1 hsuff
  refine ⟨?_, hloop.1⟩
  simp only [streamCalls, streamUploadRun, streamTryBlock, sendFails,
    Nat.min_eq_left hfs.le]
  simp [hloop.1]

theorem walkChildren_eq_preTravList (fs : List FolderT)
    (h : ∀ c ∈ fs, walkT true none c = preTrav c) :
    walkChildren true none fs = preTravList fs := by
  induction fs with
  | nil => rfl
  | cons f rest ih =>
    simp only [walkChildren, preTravList]
    rw [h f (List.mem_cons_self f rest), ih (fun c hc => h c (List.mem_cons_of_mem f hc))]

theorem walk_pre_aux : ∀ (k : Nat) (t : FolderT), sizeOf t ≤ k →
    walkT true none t = preTrav t := by
  intro k
  induction k with
  | zero =>
    intro t ht
    cases t with
    | mk n fs fl => simp at ht
  | succ k ih =>
    intro t ht
    cases t with
    | mk n fs fl =>
      have hc : ∀ c ∈ fs, walkT true none c = preTrav c := by
        intro c hcmem
        apply ih
        have h1 := List.sizeOf_lt_of_mem hcmem
        have h2 : sizeOf (FolderT.mk n fs fl) = 1 + sizeOf n + sizeOf fs + sizeOf fl := by
          simp
        omega
      simp only [walkT, preTrav, walkDescends, childDepth, if_true]
      simp [walkChildren_eq_preTravList fs hc]

theorem walkChildren_eq_postTravList (fs : List FolderT)
    (h : ∀ c ∈ fs, walkT false none c = postTrav c) :
    walkChildren false none fs = postTravList fs := by
  induction fs with
  | nil => rfl
  | cons f rest ih =>
    simp only [walkChildren, postTravList]
    rw [h f (List.mem_cons_self f rest), ih (fun c hc => h c (List.mem_cons_of_mem f hc))]

theorem walk_post_aux : ∀ (k : Nat) (t : FolderT), sizeOf t ≤ k →
    walkT false none t = postTrav t := by
  intro k
  induction k with
  | zero =>
    intro t ht
    cases t with
    | mk n fs fl => simp at ht
  | succ k ih =>
    intro t ht
    cases t with
    | mk n fs fl =>
      have hc : ∀ c ∈ fs, walkT false none c = postTrav c := by
        intro c hcmem
        apply ih
        have h1 := List.sizeOf_lt_of_mem hcmem
        have h2 : sizeOf (FolderT.mk n fs fl) = 1 + sizeOf n + sizeOf fs + sizeOf fl := by
          simp
        omega
      simp only [walkT, postTrav, walkDescends, childDepth]
      simp [walkChildren_eq_postTravList fs hc]

theorem findKey_append_self (n : String) (l : List (String × PyVal)) (v : PyVal)
    (h : findKey n l = none) : findKey n (l ++ [(n, v)]) = some v := by
  induction l with
  | nil => simp [findKey]
  | cons p rest ih =>
    simp only [findKey] at h ⊢
    by_cases hp : p.1 = n
    · simp [hp] at h
    · cases p
      simp_all [findKey]

theorem lazyAttrInit_pynone (url name : String) :
    lazyAttrInit url name .pynone = .ok ⟨name, url, .pynone⟩ := rfl

theorem valueCall_pynone (name url : String) (r : PyVal) :
    LazyAttr.valueCall ⟨name, url, .pynone⟩ r =
      match parseJson name r with
      | .ok v => .ok (v, ⟨name, url, v⟩, 1)
      | .error e => .error e := rfl

theorem findKey_eq_none_of_not_mem (k : String) (l : List (String × PyVal))
    (h : k ∉ l.map Prod.fst) : findKey k l = none := by
  induction l with
  | nil => rfl
  | cons p rest ih =>
    cases p with
    | mk k' v =>
      simp only [List.map_cons, List.mem_cons] at h
      push_neg at h
      simp only [findKey]
      rw [if_neg (fun he => h.1 he.symm)]
      exact ih h.2

theorem popKey_eq_none_of_findKey_none (k : String) (l : List (String × PyVal))
    (h : findKey k l = none) : popKey k l = none := by
  induction l with
  | nil => rfl
  | cons p rest ih =>
    cases p with
    | mk k' v =>
      simp only [findKey] at h
      by_cases he : k' = k
      · rw [if_pos he] at h; simp at h
      · rw [if_neg he] at h
        simp only [popKey]
        rw [if_neg he, ih h]
        rfl

theorem popKey_of_findKey (k : String) :
    ∀ (l : List (String × PyVal)) (v : PyVal),
      findKey k l = some v →
      ∃ l', popKey k l = some (v, l') ∧ l'.length + 1 = l.length ∧
        ((l.map Prod.fst).Nodup → findKey k l' = none) := by
  intro l
  induction l with
  | nil => intro v h; simp [findKey] at h
  | cons p rest ih =>
    intro v h
    cases p with
    | mk k' w =>
      by_cases he : k' = k
      · subst he
        simp [findKey] at h
        subst h
        refine ⟨rest, by simp [popKey], by simp, ?_⟩
        intro hn
        simp only [List.map_cons, List.nodup_cons] at hn
        exact findKey_eq_none_of_not_mem k' rest hn.1
      · simp only [findKey, if_neg he] at h
        obtain ⟨l', hpop, hlen, hnone⟩ := ih v h
        refine ⟨(k', w) :: l', ?_, ?_, ?_⟩
        · simp [popKey, if_neg he, hpop]
        · simp only [List.length_cons]
          omega
        · intro hn
          simp only [List.map_cons, List.nodup_cons] at hn
          simp only [findKey, if_neg he]
          exact hnone hn.2

/-! ## Claim theorems -/

/-- C1: for every resource node and attribute name, `attribute(name)` is
served from `self._attributes` with zero network fetches when the name is
already a key of the mapping (whatever the stored value, including
`None`), and a completed call issues at most one fetch and leaves the
mapping holding the returned value, so an immediately repeated call
returns that same value with zero fetches — at most one fetch across two
calls. -/
theorem C1_attribute_single_resolution :
    ∀ (o : SPObjectState) (name : String) (r1 r2 v : PyVal)
      (o' : SPObjectState) (k : Nat),
      (findKey name o.attributes = some v →
        attributeCall o name r1 = .ok (v, o, 0)) ∧
      (attributeCall o name r1 = .ok (v, o', k) →
        k ≤ 1 ∧ findKey name o'.attributes = some v ∧
        attributeCall o' name r2 = .ok (v, o', 0)) := by
  intro o name r1 r2 v o' k
  constructor
  · intro h
    simp [attributeCall, h]
  · intro h
    rw [attributeCall] at h
    cases hk : findKey name o.attributes with
    | some w =>
      rw [hk] at h
      simp only [Except.ok.injEq, Prod.mk.injEq] at h
      obtain ⟨hv, ho, hk0⟩ := h
      subst hv; subst ho; subst hk0
      exact ⟨by omega, hk, by simp [attributeCall, hk]⟩
    | none =>
      rw [hk] at h
      rw [lazyAttrInit_pynone] at h
      simp only [valueCall_pynone] at h
      cases hp : parseJson name r1 with
      | error e => rw [hp] at h; simp at h
      | ok w =>
        rw [hp] at h
        simp only [Except.ok.injEq, Prod.mk.injEq] at h
        obtain ⟨hv, ho, hk1⟩ := h
        subst hv
        subst ho
        subst hk1
        refine ⟨by omega, findKey_append_self name o.attributes _ hk, ?_⟩
        simp [attributeCall, findKey_append_self name o.attributes _ hk]

/-- C1 witness: on a node whose mapping already holds `A ↦ None`, reading
`A` returns the stored `None` with zero fetches, and the repeated call
does the same. -/
theorem C1_attribute_single_resolution_witness :
    attributeCall ⟨"u", [("A", PyVal.pynone)]⟩ "A" PyVal.pynone =
      Except.ok (PyVal.pynone, ⟨"u", [("A", PyVal.pynone)]⟩, 0) ∧
    (0 ≤ 1 ∧ findKey "A" [("A", PyVal.pynone)] = some PyVal.pynone ∧
      attributeCall ⟨"u", [("A", PyVal.pynone)]⟩ "A" PyVal.pynone =
        Except.ok (PyVal.pynone, ⟨"u", [("A", PyVal.pynone)]⟩, 0)) := by
  have h := C1_attribute_single_resolution ⟨"u", [("A", PyVal.pynone)]⟩ "A"
    PyVal.pynone PyVal.pynone PyVal.pynone ⟨"u", [("A", PyVal.pynone)]⟩ 0
  exact ⟨h.1 rfl, h.2 (h.1 rfl)⟩

/-- C2 counterexample: the claim "`value()` returns the pre-supplied value
without any network fetch when one was supplied at construction; otherwise
the first call fetches once and every later call returns the cached result
without a further fetch, regardless of what the first fetch resolved to"
is false.  A `LazyAttribute` constructed for name `A` with the
pre-supplied envelope `{'A': 0}` parses it to the falsy `0`, and `value()`
then issues a fetch anyway (count 1) and returns the fetched `7`, not the
pre-supplied `0`; likewise, after a first fetch resolved the falsy `0`, a
later `value()` call fetches again (count 1, not 0). -/
theorem C2_lazy_value_counterexample :
    lazyAttrInit "u/A" "A" (.pydict [("A", .pyint 0)]) =
      .ok ⟨"A", "u/A", .pyint 0⟩ ∧
    LazyAttr.valueCall ⟨"A", "u/A", .pyint 0⟩ (.pydict [("A", .pyint 7)]) =
      .ok (.pyint 7, ⟨"A", "u/A", .pyint 7⟩, 1) ∧
    LazyAttr.valueCall ⟨"A", "u/A", .pyint 0⟩ (.pydict [("A", .pyint 0)]) =
      .ok (.pyint 0, ⟨"A", "u/A", .pyint 0⟩, 1) := ⟨rfl, rfl, rfl⟩

/-- C2 (amended): `value()` returns the stored (pre-supplied or previously
fetched) value with zero fetches iff that value is truthy; when the stored
value is falsy, each `value()` call performs one fetch and stores the
parsed result, so a call whose result is truthy makes every later call
fetch-free while a call whose result is falsy leaves later calls fetching
again. -/
theorem C2_lazy_value_truthiness :
    ∀ (la : LazyAttr) (r r' : PyVal) (v : PyVal) (la' : LazyAttr) (k : Nat),
      (pyTruthy la.value = true → la.valueCall r = .ok (la.value, la, 0)) ∧
      (pyTruthy la.value = false → la.valueCall r = .ok (v, la', k) →
        k = 1 ∧ la'.value = v ∧ la'.name = la.name ∧ la'.url = la.url) ∧
      (la.valueCall r = .ok (v, la', k) → pyTruthy v = true →
        la'.valueCall r' = .ok (v, la', 0)) ∧
      (la.valueCall r = .ok (v, la', k) → pyTruthy v = false →
        ∀ (w : PyVal) (la'' : LazyAttr) (k' : Nat),
          la'.valueCall r' = .ok (w, la'', k') → k' = 1) := by
  intro la r r' v la' k
  refine ⟨?_, ?_, ?_, ?_⟩
  · intro ht
    simp [LazyAttr.valueCall, ht]
  · intro ht h
    rw [LazyAttr.valueCall, ht] at h
    simp only [Bool.false_eq_true, if_false] at h
    cases hp : parseJson la.name r with
    | error e => rw [hp] at h; simp at h
    | ok w =>
      rw [hp] at h
      simp only [Except.ok.injEq, Prod.mk.injEq] at h
      obtain ⟨hv, ho, hk⟩ := h
      subst hv; subst ho; subst hk
      simp
  · intro h htv
    rw [LazyAttr.valueCall] at h
    by_cases ht : pyTruthy la.value
    · rw [if_pos (by simp [ht])] at h
      simp only [Except.ok.injEq, Prod.mk.injEq] at h
      obtain ⟨hv, ho, hk⟩ := h
      subst hv; subst ho
      simp [LazyAttr.valueCall, ht]
    · rw [if_neg (by simp [ht])] at h
      cases hp : parseJson la.name r with
      | error e => rw [hp] at h; simp at h
      | ok w =>
        rw [hp] at h
        simp only [Except.ok.injEq, Prod.mk.injEq] at h
        obtain ⟨hv, ho, hk⟩ := h
        subst hv; subst ho
        simp only [LazyAttr.valueCall] at htv ⊢
        simp [htv]
  · intro h htv w la'' k' h2
    have hval : la'.value = v := by
      rw [LazyAttr.valueCall] at h
      by_cases ht : pyTruthy la.value
      · rw [if_pos (by simp [ht])] at h
        simp only [Except.ok.injEq, Prod.mk.injEq] at h
        obtain ⟨hv, ho, hk⟩ := h
        subst hv; subst ho; rfl
      · rw [if_neg (by simp [ht])] at h
        cases hp : parseJson la.name r with
        | error e => rw [hp] at h; simp at h
        | ok u =>
          rw [hp] at h
          simp only [Except.ok.injEq, Prod.mk.injEq] at h
          obtain ⟨hv, ho, hk⟩ := h
          subst hv; subst ho; rfl
    rw [LazyAttr.valueCall, hval, htv] at h2
    simp only [Bool.false_eq_true, if_false] at h2
    cases hp : parseJson la'.name r' with
    | error e => rw [hp] at h2; simp at h2
    | ok u =>
      rw [hp] at h2
      simp only [Except.ok.injEq, Prod.mk.injEq] at h2
      omega

/-- C2 witness: a truthy stored value is returned fetch-free; a falsy
stored value makes the call fetch once and cache the parsed result; a
truthy fetched value makes the next call fetch-free; a falsy fetched value
makes the next call fetch again. -/
theorem C2_lazy_value_truthiness_witness :
    LazyAttr.valueCall ⟨"A", "u", PyVal.pystr "x"⟩ PyVal.pynone =
      Except.ok (PyVal.pystr "x", ⟨"A", "u", PyVal.pystr "x"⟩, 0) ∧
    (1 = 1 ∧ (⟨"A", "u", PyVal.pyint 3⟩ : LazyAttr).value = PyVal.pyint 3 ∧
      ("A" : String) = "A" ∧ ("u" : String) = "u") ∧
    LazyAttr.valueCall ⟨"A", "u", PyVal.pyint 3⟩ PyVal.pynone =
      Except.ok (PyVal.pyint 3, ⟨"A", "u", PyVal.pyint 3⟩, 0) ∧
    (1 : Nat) = 1 := by
  have h1 := C2_lazy_value_truthiness ⟨"A", "u", .pystr "x"⟩ .pynone .pynone
    (.pystr "x") ⟨"A", "u", .pystr "x"⟩ 0
  have h2 := C2_lazy_value_truthiness ⟨"A", "u", .pynone⟩
    (.pydict [("A", .pyint 3)]) .pynone (.pyint 3) ⟨"A", "u", .pyint 3⟩ 1
  have h3 := C2_lazy_value_truthiness ⟨"A", "u", .pynone⟩
    (.pydict [("A", .pyint 0)]) (.pydict [("A", .pyint 0)]) (.pyint 0)
    ⟨"A", "u", .pyint 0⟩ 1
  exact ⟨h1.1 rfl, h2.2.1 rfl rfl, h2.2.2.1 rfl (by decide),
    h3.2.2.2 rfl (by decide) (.pyint 0) ⟨"A", "u", .pyint 0⟩ 1 rfl⟩

/-- C3: in the chunked-upload loop (chunk size 1,048,576 bytes, offset
starting at 0) over a file larger than one chunk, a chunk is routed to
`finishupload` iff `offset >= fileSize - chunkSize` at the time it is
read, and this fires exactly once; for file size 2,097,153 the sequence is
start(0), continue(1,048,576), finish(2,097,152, 1 byte); for file size
exactly 2,097,152 = 2×chunk the second, full-size chunk goes through
finish, with no separate empty continue or finish call. -/
theorem C3_chunk_finish_routing :
    (∀ u : String, streamCalls u uploadChunkSize 2097153 =
      [.startUpload u 0 1048576, .continueUpload u 1048576 1048576,
       .finishUpload u 2097152 1]) ∧
    (∀ u : String, streamCalls u uploadChunkSize 2097152 =
      [.startUpload u 0 1048576, .finishUpload u 1048576 1048576]) ∧
    (∀ (u : String) (fileSize : Nat), uploadChunkSize < fileSize →
      (streamCalls u uploadChunkSize fileSize).countP (fun e => e.isFinish) = 1 ∧
      (∀ e ∈ streamCalls u uploadChunkSize fileSize,
        (e.isFinish = true ↔ fileSize - uploadChunkSize ≤ e.offsetOf))) := by
  refine ⟨fun u => rfl, fun u => rfl, ?_⟩
  intro u fileSize hfs
  have hcs : 0 < uploadChunkSize := by norm_num [uploadChunkSize]
  have hsuff : fileSize ≤ uploadChunkSize + (fileSize + 1) * uploadChunkSize := by
    have h1 : fileSize + 1 ≤ (fileSize + 1) * uploadChunkSize :=
      Nat.le_mul_of_pos_right _ hcs
    omega
  have hloop := streamLoop_none_spec u uploadChunkSize fileSize hcs fileSize
    uploadChunkSize 1 hsuff
  have hdec := streamCalls_decomp u uploadChunkSize fileSize hcs hfs
  rw [hdec.1]
  constructor
  · simp [List.countP_cons, hloop.2.1]
  · intro e he
    simp at he
    rcases he with he | he
    · subst he
      simp
      omega
    · exact hloop.2.2 e he

/-- C3 witness: at file size 2,097,153 the file is larger than one chunk
and the finish condition fires on exactly one chunk. -/
theorem C3_chunk_finish_routing_witness :
    uploadChunkSize < 2097153 ∧
    (streamCalls "g" uploadChunkSize 2097153).countP (fun e => e.isFinish) = 1 := by
  refine ⟨by decide, ?_⟩
  exact (C3_chunk_finish_routing.2.2 "g" 2097153 (by decide)).1

/-- C4: for the chain root→A→B→C, `walk(maxdepth=1)` yields only the
root's triple and `walk(maxdepth=2)` yields the root's and A's triples
without descending into B; in general, recursion into the child folders
occurs only when `maxdepth` is `None` or greater than 1, and each child
call receives `maxdepth - 1` (or `None` when `maxdepth` was unset). -/
theorem C4_walk_depth_bound :
    walkT true (some 1) folderRoot = [tripleOf folderRoot] ∧
    walkT true (some 2) folderRoot = [tripleOf folderRoot, tripleOf folderA] ∧
    (∀ (td : Bool) (d : Int) (t : FolderT), d ≤ 1 →
      walkT td (some d) t = [tripleOf t]) ∧
    (∀ (td : Bool) (d : Int) (n : String) (fs : List FolderT) (fl : List String),
      1 < d →
      walkT td (some d) (.mk n fs fl) =
        (if td then [tripleOf (.mk n fs fl)] else [])
          ++ walkChildren td (some (d - 1)) fs
          ++ (if td then [] else [tripleOf (.mk n fs fl)])) ∧
    (∀ (td : Bool) (n : String) (fs : List FolderT) (fl : List String),
      walkT td none (.mk n fs fl) =
        (if td then [tripleOf (.mk n fs fl)] else [])
          ++ walkChildren td none fs
          ++ (if td then [] else [tripleOf (.mk n fs fl)])) := by
  refine ⟨?_, ?_, ?_, ?_, ?_⟩
  · simp [folderRoot, folderA, walkT, walkDescends, childDepth, tripleOf]
  · simp [folderRoot, folderA, folderB, walkT, walkChildren, walkDescends,
      childDepth, tripleOf]
  · intro td d t hd
    cases t with
    | mk n fs fl =>
      have hno : walkDescends (some d) = false := by
        simp [walkDescends]; omega
      cases td <;> simp [walkT, hno, tripleOf]
  · intro td d n fs fl hd
    have h1 : walkDescends (some d) = true := by simp [walkDescends]; omega
    have h2 : childDepth (some d) = some (d - 1) := by
      simp [childDepth]; omega
    cases td <;> simp [walkT, h1, h2, tripleOf]
  · intro td n fs fl
    cases td <;> simp [walkT, walkDescends, childDepth, tripleOf]

/-- C4 witness: `maxdepth = 0` yields a single triple with no descent, and
`maxdepth = 2` descends passing depth 1 to the child calls. -/
theorem C4_walk_depth_bound_witness :
    ((0 : Int) ≤ 1 ∧
      walkT true (some 0) (.mk "X" [] []) = [tripleOf (.mk "X" [] [])]) ∧
    ((1 : Int) < 2 ∧
      walkT true (some 2) (.mk "X" [] []) =
        (if true then [tripleOf (.mk "X" [] [])] else [])
          ++ walkChildren true (some (2 - 1)) []
          ++ (if true then [] else [tripleOf (.mk "X" [] [])])) := by
  refine ⟨⟨by decide, ?_⟩, ⟨by decide, ?_⟩⟩
  · exact C4_walk_depth_bound.2.2.1 true 0 (.mk "X" [] []) (by decide)
  · exact C4_walk_depth_bound.2.2.2.1 true 2 "X" [] [] (by decide)

/-- C5: the claim says `walk(maxdepth=-1)` means unbounded depth, the same
sequence as `walk(maxdepth=None)` (and `SPFolder.download`'s docstring
says "To get all subfolders, set level to -1"), but the recursion guard
`maxdepth is None or maxdepth > 1` is false at `-1`, so the code yields
only the root's triple and never descends: on the tree root→A the two
walks differ (lengths 1 and 2). -/
theorem C5_walk_negative_depth :
    walkT true (some (-1)) (.mk "root" [.mk "A" [] []] []) =
      [tripleOf (.mk "root" [.mk "A" [] []] [])] ∧
    walkT true none (.mk "root" [.mk "A" [] []] []) =
      [tripleOf (.mk "root" [.mk "A" [] []] []), tripleOf (.mk "A" [] [])] ∧
    (walkT true (some (-1)) (.mk "root" [.mk "A" [] []] [])).length = 1 ∧
    (walkT true none (.mk "root" [.mk "A" [] []] [])).length = 2 := by
  refine ⟨?_, ?_, ?_, ?_⟩ <;>
    simp [walkT, walkChildren, walkDescends, childDepth, tripleOf]

/-- C6: for every folder tree, `walk(topdown=True, maxdepth=None)` is
exactly the pre-order traversal (each folder's triple comes before every
descendant's triple, for every subtree) and `walk(topdown=False)` is
exactly the post-order traversal (all descendants' triples come before the
folder's own); in particular the topdown walk starts with the folder's own
triple and the bottom-up walk ends with it. -/
theorem C6_walk_ordering :
    ∀ t : FolderT,
      walkT true none t = preTrav t ∧
      walkT false none t = postTrav t ∧
      (walkT true none t).head? = some (tripleOf t) ∧
      (walkT false none t).getLast? = some (tripleOf t) := by
  intro t
  have h1 := walk_pre_aux (sizeOf t) t (Nat.le_refl _)
  have h2 := walk_post_aux (sizeOf t) t (Nat.le_refl _)
  refine ⟨h1, h2, ?_, ?_⟩
  · rw [h1]; cases t with | mk n fs fl => simp [preTrav]
  · rw [h2]; cases t with | mk n fs fl => simp [postTrav]

/-- C7: a POST issued when `now >= expiry` triggers exactly one renewal
request and updates the session's digest header to the fresh token before
the POST proceeds; a POST issued when `now < expiry` triggers zero
renewals; a GET never triggers a renewal; and (for a positive renewal
timeout) the POST is never issued while the token is known-expired —
after `_digest()` the expiry exceeds `now`. -/
theorem C7_digest_renewal :
    ∀ (st : DigestState) (now : Int) (tok : String) (timeout : Int),
      (st.expire ≤ now →
        httpStep st now .post tok timeout =
          (⟨now + timeout, some tok⟩, 1, some tok)) ∧
      (now < st.expire →
        httpStep st now .post tok timeout = (st, 0, st.digestHeader)) ∧
      httpStep st now .get tok timeout = (st, 0, st.digestHeader) ∧
      (0 < timeout → now < (httpStep st now .post tok timeout).1.expire) := by
  intro st now tok timeout
  refine ⟨?_, ?_, rfl, ?_⟩
  · intro h
    simp [httpStep, digestStep, h]
  · intro h
    simp [httpStep, digestStep, not_le.mpr h]
  · intro ht
    by_cases h : st.expire ≤ now
    · simp [httpStep, digestStep, h]
      omega
    · simp [httpStep, digestStep, h]
      omega

/-- C7 witness: at an expired state a POST renews once and updates the
header; at an unexpired state a POST renews zero times; a GET never
renews; the POST proceeds with an unexpired token. -/
theorem C7_digest_renewal_witness :
    httpStep ⟨0, none⟩ 0 .post "tok" 100 = (⟨100, some "tok"⟩, 1, some "tok") ∧
    httpStep ⟨5, some "old"⟩ 0 .post "tok" 100 = (⟨5, some "old"⟩, 0, some "old") ∧
    httpStep ⟨0, none⟩ 0 .get "tok" 100 = (⟨0, none⟩, 0, none) ∧
    (0 : Int) < (httpStep ⟨0, none⟩ 0 .post "tok" 100).1.expire := by
  have h1 := C7_digest_renewal ⟨0, none⟩ 0 "tok" 100
  have h2 := C7_digest_renewal ⟨5, some "old"⟩ 0 "tok" 100
  exact ⟨h1.1 (by decide), h2.2.1 (by decide), h1.2.2.1, h1.2.2.2 (by decide)⟩

/-- C8 counterexample: the claim says that on an exception during a chunk
read/transmit the session issues a cancel call, closes the file handle,
and then re-raises the failure to the caller.  With the second send
failing on a 3-chunk file, the code instead closes the file handle first,
then issues the cancel call, and returns normally (second component
`none`): the `except:` handler of `_stream_upload` never re-raises. -/
theorem C8_upload_cancel_counterexample :
    streamUploadRun "g" 1048576 3145728 (some 1) =
      ([.startUpload "g" 0 1048576, .fileClosed, .cancelUpload "g"], none) := by
  decide

/-- C8 (amended): on any exception while reading or transmitting a chunk,
`_stream_upload` closes the local file handle and then issues a
best-effort `cancelupload` call carrying the session id; the exception is
swallowed — the function returns normally rather than re-raising. -/
theorem C8_upload_cancel_swallows :
    ∀ (u : String) (cs fileSize : Nat) (failAt : Option Nat) (e : String),
      (streamTryBlock u cs fileSize failAt).2 = some e →
      streamUploadRun u cs fileSize failAt =
        ((streamTryBlock u cs fileSize failAt).1 ++
          [.fileClosed, .cancelUpload u], none) := by
  intro u cs fileSize failAt e h
  simp only [streamUploadRun]
  rw [h]

/-- C8 witness: with the second send failing, the run ends with the file
close followed by the cancel call carrying the session id, and returns
normally. -/
theorem C8_upload_cancel_swallows_witness :
    streamUploadRun "s" 1048576 3145728 (some 1) =
      ((streamTryBlock "s" 1048576 3145728 (some 1)).1 ++
        [.fileClosed, .cancelUpload "s"], none) :=
  C8_upload_cancel_swallows "s" 1048576 3145728 (some 1) "send raised" (by decide)

/-- C9: `_stringify` renders every string argument with each internal
apostrophe doubled (encoded as `%27%27`) and the whole value wrapped in
single quotes — concretely `"it's"` becomes `'it%27%27s'` — renders every
`uuid.UUID` as `guid'<value>'`, and renders every other argument via its
natural string form, unquoted. -/
theorem C9_stringify_escaping :
    stringify (.pstr "it's") = "'it%27%27s'" ∧
    (∀ u : String, stringify (.puuid u) = "guid'" ++ u ++ "'") ∧
    (∀ r : String, stringify (.other r) = r) ∧
    (∀ s : String, '\'' ∉ s.data → stringify (.pstr s) = "'" ++ s ++ "'") ∧
    (∀ a b : String, '\'' ∉ a.data → '\'' ∉ b.data →
      stringify (.pstr (a ++ "'" ++ b)) = "'" ++ a ++ "%27%27" ++ b ++ "'") := by
  refine ⟨by decide, fun u => rfl, fun r => rfl, ?_, ?_⟩
  · intro s h
    simp [stringify]
    apply String.ext
    simp [doubleApos_no_apos _ h]
  · intro a b ha hb
    simp [stringify]
    apply String.ext
    simp [String.data_append, doubleApos_append, doubleApos_no_apos _ ha,
      doubleApos_no_apos _ hb]
    simp [show ("'" : String).data = ['\''] from rfl, doubleApos,
      doubleApos_no_apos _ hb]

/-- C9 witness: splitting `it's` around its apostrophe, the rendered call
argument is `'it%27%27s'`. -/
theorem C9_stringify_escaping_witness :
    '\'' ∉ ("it" : String).data ∧ '\'' ∉ ("s" : String).data ∧
    stringify (.pstr ("it" ++ "'" ++ "s")) = "'" ++ "it" ++ "%27%27" ++ "s" ++ "'" :=
  ⟨by decide, by decide,
    C9_stringify_escaping.2.2.2.2 "it" "s" (by decide) (by decide)⟩

/-- C10: constructing a resource node from a JSON envelope dict (keys
unique, `__metadata` present, at least one other field) mutates the
caller's dict in place: the `__metadata` key is removed by
`json.pop('__metadata')`, so afterwards the same dict no longer contains
`__metadata`, and constructing a second node from that same dict raises a
`KeyError`. -/
theorem C10_init_pops_metadata :
    ∀ (fs : List (String × PyVal)) (v : PyVal),
      (fs.map Prod.fst).Nodup →
      findKey "__metadata" fs = some v →
      2 ≤ fs.length →
      ∃ attrs fs',
        spObjectInit (some fs) = .ok (attrs, some fs') ∧
        findKey "__metadata" fs' = none ∧
        fs'.length + 1 = fs.length ∧
        spObjectInit (some fs') = .error "KeyError: __metadata" := by
  intro fs v hn hf hl
  obtain ⟨fs', hpop, hlen, hnone⟩ := popKey_of_findKey "__metadata" fs v hf
  have hne : fs.isEmpty = false := by
    cases fs
    · simp at hl
    · rfl
  have hnone' := hnone hn
  refine ⟨fs'.filter (fun p => !isDictVal p.2), fs', ?_, hnone', hlen, ?_⟩
  · simp [spObjectInit, hne, hpop]
  · have hne' : fs'.isEmpty = false := by
      cases fs'
      · simp at hlen; omega
      · rfl
    simp [spObjectInit, hne',
      popKey_eq_none_of_findKey_none "__metadata" fs' hnone']

/-- C10 witness: the envelope `{'__metadata': None, 'Name': 'f'}` loses
its `__metadata` key during construction, and reusing the mutated dict
raises a `KeyError`. -/
theorem C10_init_pops_metadata_witness :
    ∃ attrs fs',
      spObjectInit (some [("__metadata", PyVal.pynone), ("Name", PyVal.pystr "f")]) =
        .ok (attrs, some fs') ∧
      findKey "__metadata" fs' = none ∧
      fs'.length + 1 = 2 ∧
      spObjectInit (some fs') = .error "KeyError: __metadata" :=
  C10_init_pops_metadata [("__metadata", PyVal.pynone), ("Name", PyVal.pystr "f")]
    PyVal.pynone (by decide) rfl (by decide)

end Sharepoint
